import Mathlib

/-!
Verification of the game-logic core of the soupai plugin (src/main.py).

The development shallowly embeds the puzzle-pool classes
(ThreadSafeStoryStorage, NetworkSoupaiStorage, StoryStorage), the
per-group game-session handlers (game_session_waiter,
_handle_verification_in_session, _build_hint_result) and the
verification-reply parser (_parse_verification_result) as pure Lean
functions, and proves the specified properties about them.

Conventions:
- Python sets of used indices are modelled as a Finset of naturals.
- random.choice over a nonempty list is modelled by an arbitrary seed
  r, the chosen element being the one at position r modulo the length;
  every concrete choice corresponds to some seed and vice versa.
- LLM oracle calls are modelled by passing the oracle reply as an
  argument; whether and with which arguments the oracle is invoked is
  recorded explicitly in the result of each handler.
- Python text is modelled as a list of characters; str.strip is
  modelled over the ASCII whitespace characters.
-/

namespace Soupai

/-! ### Puzzle pool data model -/

/-- One stored puzzle record: the story dict with keys puzzle, answer
and the optional created_at timestamp. -/
structure Story where
  puzzle : String
  answer : String
  created_at : Option String := none
deriving DecidableEq

/-- In-memory state shared by the storage classes: the ordered record
list self.stories and the used-index set self.used_indexes. -/
structure Pool where
  stories : List Story
  used : Finset ℕ
deriving DecidableEq

/-- The list comprehension in get_story: all indices of the current
record list that are not in the used-index set. -/
def availableIndexes (p : Pool) : List ℕ :=
  (List.range p.stories.length).filter (fun i => i ∉ p.used)

/-- Index-selection core of NetworkSoupaiStorage.get_story and
StoryStorage.get_story: return None on an empty record list; otherwise
compute the available indices, on exhaustion clear the used set and
retry over the full range, pick one available index (seed r standing
for random.choice) and mark it used. -/
def drawP (p : Pool) (r : ℕ) : Option ℕ × Pool :=
  if p.stories = [] then (none, p)
  else
    let avail0 := availableIndexes p
    let used0 := if avail0 = [] then (∅ : Finset ℕ) else p.used
    let avail := if avail0 = [] then List.range p.stories.length else avail0
    let sel := avail.getD (r % avail.length) 0
    (some sel, ⟨p.stories, insert sel used0⟩)

/-- Iterated draws with one seed per call, collecting the drawn
indices. -/
def drawSeq : Pool → List ℕ → List ℕ × Pool
  | p, [] => ([], p)
  | p, r :: rs =>
    match drawP p r with
    | (some i, p1) =>
      let s := drawSeq p1 rs
      (i :: s.1, s.2)
    | (none, p1) => drawSeq p1 rs

/-- StoryStorage.add_story: when the record list has reached max_size,
pop the record at index 0, then append the new record; the used-index
set is left untouched by the source. -/
def addStoryP (maxSize : ℕ) (p : Pool) (puzzle answer ts : String) : Pool :=
  let stories0 := if maxSize ≤ p.stories.length then p.stories.tail else p.stories
  { stories := stories0 ++ [⟨puzzle, answer, some ts⟩], used := p.used }

/-- Remap of the used-index set that the specification demands on
eviction of index 0 (spec section 4.1 add): drop membership of the
evicted index 0 and decrement every remaining used index by one. This
definition follows the words of the spec, for comparison with
addStoryP which is translated from the source. -/
def specEvictRemapUsed (used : Finset ℕ) : Finset ℕ :=
  (used.erase 0).image (fun i => i - 1)

/-- Concrete bounded pool at capacity (max_size 2) whose used-index
set marks the record at index 1. -/
def c1Pool : Pool := ⟨[⟨"p0", "a0", none⟩, ⟨"p1", "a1", none⟩], {1}⟩

/-- Concrete two-record pool used by the C2 witness. -/
def w2Pool : Pool := ⟨[⟨"p0", "a0", none⟩, ⟨"p1", "a1", none⟩], ∅⟩

/-! ### Persistence model -/

/-- Result of reading a persisted file: the file may be absent, the
read may raise, or it yields a value. -/
inductive ReadOutcome (α : Type) where
  | missing
  | failed
  | ok (value : α)

/-- ThreadSafeStoryStorage.load_usage_record: a present, readable file
yields its index list as the used set; a missing file or a caught read
exception leaves the used set empty, and the call returns normally. -/
def load_usage_record : ReadOutcome (List ℕ) → Finset ℕ
  | .ok l => l.toFinset
  | .missing => ∅
  | .failed => ∅

/-- load_stories (both storage classes): a missing file or a caught
read exception leaves the record list empty, and the call returns
normally. -/
def load_stories : ReadOutcome (List Story) → List Story
  | .ok l => l
  | .missing => []
  | .failed => []

/-- Storage state together with the two persisted files (usage-index
list and record list). -/
structure PoolW where
  pool : Pool
  diskUsage : Option (List ℕ)
  diskStories : Option (List Story)

/-- ThreadSafeStoryStorage.save_usage_record: on success the file is
rewritten wholesale with the current used set; a write exception is
caught and logged, leaving the file as it was. The call returns
normally either way. -/
def save_usage_record (ok : Bool) (used : Finset ℕ) (disk : Option (List ℕ)) :
    Option (List ℕ) :=
  if ok then some (used.sort (· ≤ ·)) else disk

/-- StoryStorage.save_stories with the same caught-exception
semantics. -/
def save_stories (ok : Bool) (stories : List Story) (disk : Option (List Story)) :
    Option (List Story) :=
  if ok then some stories else disk

/-- get_story including its persistence effect: the in-memory draw
happens first, then the used set is saved; the final file content is
that of the last write issued. -/
def get_story (w : PoolW) (r : ℕ) (saveOk : Bool) :
    Option (String × String) × PoolW :=
  match drawP w.pool r with
  | (none, _) => (none, w)
  | (some i, p1) =>
    let st := p1.stories.getD i ⟨"", "", none⟩
    (some (st.puzzle, st.answer),
      { pool := p1,
        diskUsage := save_usage_record saveOk p1.used w.diskUsage,
        diskStories := w.diskStories })

/-- add_story including its persistence effect: the in-memory mutation
happens first, then the record list is saved; the method returns True
unconditionally. -/
def add_story (w : PoolW) (maxSize : ℕ) (puzzle answer ts : String)
    (saveOk : Bool) : Bool × PoolW :=
  let p1 := addStoryP maxSize w.pool puzzle answer ts
  (true,
    { pool := p1,
      diskUsage := w.diskUsage,
      diskStories := save_stories saveOk p1.stories w.diskStories })

/-! ### Python text primitives

Message text is modelled as a list of characters, so that str.strip,
str.lstrip, str.split, str.replace, substring containment and the two
regular expressions of the session handler can be given executable,
provable models. -/

/-- Text as a character list. -/
abbrev Str := List Char

/-- Character list of a string literal. -/
def chars (s : String) : Str := s.data

/-- ASCII whitespace as recognised by str.strip and the regex class
backslash-s. -/
def pyWS (c : Char) : Bool :=
  c = ' ' || c = '\t' || c = '\n' || c = '\r' || c = '\x0b' || c = '\x0c'

/-- str.lstrip with no argument: drop leading whitespace. -/
def lstripL (l : Str) : Str := l.dropWhile pyWS

/-- str.rstrip with no argument: drop trailing whitespace. -/
def rstripL (l : Str) : Str := (l.reverse.dropWhile pyWS).reverse

/-- str.strip with no argument. -/
def stripL (l : Str) : Str := rstripL (lstripL l)

/-- str.split on a single newline separator. -/
def splitNl : Str → List Str
  | [] => [[]]
  | c :: t =>
    if c = '\n' then [] :: splitNl t
    else
      match splitNl t with
      | [] => [[c]]
      | h :: r => (c :: h) :: r

/-- str.replace with empty replacement: delete every non-overlapping
occurrence of the (nonempty) pattern, scanning left to right. -/
def replaceAllE (pat : Str) (l : Str) : Str :=
  match l with
  | [] => []
  | c :: t =>
    if 1 ≤ pat.length ∧ pat.isPrefixOf (c :: t) = true then
      replaceAllE pat (t.drop (pat.length - 1))
    else c :: replaceAllE pat t
termination_by l.length
decreasing_by
  · simp only [List.length_drop, List.length_cons]
    omega
  · simp only [List.length_cons]
    omega

/-- Python substring containment (the in operator on str). -/
def containsSub (pat : Str) : Str → Bool
  | [] => pat.isPrefixOf []
  | c :: t => pat.isPrefixOf (c :: t) || containsSub pat t

/-! ### Verification-reply parsing -/

/-- VerificationResult: the parsed verdict of the verification
oracle. -/
structure VerificationResult where
  level : Str
  comment : Str
  is_correct : Bool
deriving DecidableEq

/-- The two levels that count as winning in
_parse_verification_result. -/
def winningLevels : List Str := [chars "完全还原", chars "核心推理正确"]

/-- The line scan of _parse_verification_result: strip each line, keep
the text after the last 等级： line and after the last 评价： line
(str.replace deletes every occurrence of the marker). -/
def scanLevelComment (lines : List Str) : Str × Str :=
  lines.foldl
    (fun acc line =>
      let line := stripL line
      if (chars "等级：").isPrefixOf line then
        (stripL (replaceAllE (chars "等级：") line), acc.2)
      else if (chars "评价：").isPrefixOf line then
        (acc.1, stripL (replaceAllE (chars "评价：") line))
      else acc)
    ([], [])

/-- _parse_verification_result: split the stripped reply into lines
and scan for the 等级／评价 pair; the winning flag is membership of the
level in the two winning levels; if either field is missing, fall back
to keyword search over the raw text, and failing that to the 验证失败
level with a negative flag. Total on every input. -/
def parse_verification_result (text : Str) : VerificationResult :=
  let lines := splitNl (stripL text)
  let lc := scanLevelComment lines
  if lc.1 = [] ∨ lc.2 = [] then
    if containsSub (chars "完全还原") text || containsSub (chars "核心推理正确") text then
      ⟨if containsSub (chars "核心推理正确") text then chars "核心推理正确"
        else chars "完全还原",
       chars "推理基本正确，但解析结果格式异常", true⟩
    else ⟨chars "验证失败", chars "无法解析验证结果", false⟩
  else ⟨lc.1, lc.2, decide (lc.1 ∈ winningLevels)⟩

/-! ### Game-session data model -/

/-- The per-group game dict created by GameState.start_game with the
extra fields passed by start_soupai_game. -/
structure Game where
  puzzle : Str
  answer : Str
  difficulty : Str
  question_limit : Option ℕ
  question_count : ℕ
  verification_attempts : ℕ
  accept_levels : List Str
  hint_limit : Option ℕ
  hint_count : ℕ
  qa_history : List (Str × Str)
deriving DecidableEq

/-- Messages the session handlers send, identified by their dynamic
content; text revealed to the group (answer, oracle reply, counters)
is carried explicitly. -/
inductive Msg where
  | rank (level comment : Str)
  | winReveal (answer : Str)
  | verifyRemaining (n : ℤ)
  | lossReveal (answer : Str)
  | budgetExhausted (remaining : ℤ)
  | judged (reply : Str) (count limit : ℕ)
  | switchToVerification
  | judgedNoLimit (reply : Str)
  | hintDisabled
  | hintBudgetExhausted
  | askFirst
  | hintText (hint : Str) (counter : Option (ℕ × ℕ))
deriving DecidableEq

/-- Outcome of _handle_verification_in_session: the recomputed winning
flag, the messages sent in order, the game dict afterwards, and
whether the session was terminated (end_game plus controller stop). -/
structure VerifyStep where
  is_correct : Bool
  msgs : List Msg
  game : Game
  ended : Bool
deriving DecidableEq

/-- _handle_verification_in_session, given the oracle result res for
the submitted guess: the winning flag is recomputed as membership of
res.level in the session's accept_levels; a win reveals the answer and
ends the session; otherwise, only when a question limit exists and is
exhausted, the attempt counter is bumped and the session ends with the
answer revealed once the remaining count 2 - attempts is no longer
positive. -/
def handle_verification (g : Game) (res : VerificationResult) : VerifyStep :=
  let isc := decide (res.level ∈ g.accept_levels)
  let base := [Msg.rank res.level res.comment]
  if isc then ⟨isc, base ++ [Msg.winReveal g.answer], g, true⟩
  else
    match g.question_limit with
    | some L =>
      if L ≤ g.question_count then
        let va := g.verification_attempts + 1
        let g1 := { g with verification_attempts := va }
        let remaining : ℤ := 2 - (va : ℤ)
        if 0 < remaining then ⟨isc, base ++ [Msg.verifyRemaining remaining], g1, false⟩
        else ⟨isc, base ++ [Msg.lossReveal g.answer], g1, true⟩
      else ⟨isc, base, g, false⟩
    | none => ⟨isc, base, g, false⟩

/-- Outcome of the natural-language question branch of
game_session_waiter: whether judge_question was awaited, the messages
sent, and the game dict afterwards. -/
structure AskStep where
  oracleCalled : Bool
  msgs : List Msg
  game : Game
deriving DecidableEq

/-- The ask block of game_session_waiter (budget check, oracle call,
history append, counter update), with reply the oracle's verdict text,
meaningful only when the oracle is reached: a set and exhausted
question limit rejects the question before the oracle; otherwise the
question and verdict are appended to qa_history and, only when a limit
is configured, question_count is bumped and reaching the limit adds
the one-time switch-to-verification notice. -/
def handle_ask (g : Game) (question reply : Str) : AskStep :=
  match g.question_limit with
  | some L =>
    if L ≤ g.question_count then
      ⟨false, [Msg.budgetExhausted (2 - (g.verification_attempts : ℤ))], g⟩
    else
      let g1 := { g with qa_history := g.qa_history ++ [(question, reply)] }
      let g2 := { g1 with question_count := g1.question_count + 1 }
      let msgs0 := [Msg.judged reply g2.question_count L]
      let msgs := if L ≤ g2.question_count then msgs0 ++ [Msg.switchToVerification]
        else msgs0
      ⟨true, msgs, g2⟩
  | none =>
    let g1 := { g with qa_history := g.qa_history ++ [(question, reply)] }
    ⟨true, [Msg.judgedNoLimit reply], g1⟩

/-- Outcome of _build_hint_result on an active game: the arguments
generate_hint was awaited with (if at all), the resulting message, and
the game dict afterwards. -/
structure HintStep where
  calledWith : Option (List (Str × Str) × Str)
  msg : Msg
  game : Game
deriving DecidableEq

/-- _build_hint_result for an active group game: a zero hint limit
rejects first, then an exhausted set limit, then an empty qa_history;
otherwise generate_hint is awaited with the full history and the
answer, hint_count is bumped, and the hint is sent with a counter
suffix exactly when a limit is set. -/
def build_hint_result (g : Game) (hint : Str) : HintStep :=
  if g.hint_limit = some 0 then ⟨none, Msg.hintDisabled, g⟩
  else if (match g.hint_limit with
      | some L => decide (L ≤ g.hint_count)
      | none => false) = true then
    ⟨none, Msg.hintBudgetExhausted, g⟩
  else if g.qa_history = [] then ⟨none, Msg.askFirst, g⟩
  else
    ⟨some (g.qa_history, g.answer),
     Msg.hintText hint (g.hint_limit.map (fun L => (g.hint_count + 1, L))),
     { g with hint_count := g.hint_count + 1 }⟩

/-! ### Session dispatch (message routing of game_session_waiter) -/

/-- Model of the Python regex fragment dot-plus-dollar anchored at the
start of t (re noMULTILINE): it matches when t is a nonempty
newline-free run, optionally followed by one final newline; the
captured group is that run. -/
def matchTail (t : Str) : Option Str :=
  if t = [] then none
  else if t.contains '\n' = false then some t
  else if t.getLast? = some '\n' ∧ t.dropLast.contains '\n' = false
      ∧ t.dropLast ≠ [] then some t.dropLast
  else none

/-- Greedy backtracking of the whitespace-star prefix: try consuming j
whitespace characters first, then fewer, mirroring the regex engine. -/
def tryBack (t : Str) : ℕ → Option Str
  | 0 => matchTail t
  | j + 1 =>
    match matchTail (t.drop (j + 1)) with
    | some g => some g
    | none => tryBack t j

/-- The tail of the verification regex (whitespace-star, then a
captured dot-plus, then dollar) applied to whatever follows the
literal 验证 marker. -/
def verifyMatch (rest : Str) : Option Str :=
  tryBack rest (rest.takeWhile pyWS).length

/-- What the body of game_session_waiter does next for one incoming
message: the branch that is taken, with the argument the awaited
oracle would receive. callVerify carries the stripped captured guess
handed to verify_user_guess; callJudge carries the question text
handed to judge_question. -/
inductive Action where
  | statusCmd
  | forceEndCmd
  | viewCmd
  | hintCmd
  | callVerify (guess : Str)
  | verifyUsageError
  | revealCmd
  | otherCommandIgnored
  | notAtBotIgnored
  | askRejected (remaining : ℤ)
  | callJudge (question : Str)
  | noGame
deriving DecidableEq

/-- The routing cascade of game_session_waiter, translated branch for
branch: strip the incoming text; dispatch the status, force-end, view
and hint commands; match the two verification command forms against
their regex; dispatch 揭晓; ignore other slash commands; ignore
messages not mentioning the bot; reject questions over an exhausted
limit before the oracle; otherwise hand the question to
judge_question. -/
def dispatch (g : Option Game) (messageStr : Str) (atBot : Bool) : Action :=
  match g with
  | none => Action.noGame
  | some game =>
    let userInput := stripL messageStr
    if userInput = chars "/汤状态" ∨ userInput = chars "汤状态" then Action.statusCmd
    else if userInput = chars "/强制结束" ∨ userInput = chars "强制结束" then
      Action.forceEndCmd
    else if stripL (userInput.dropWhile (fun c => c = '/')) = chars "查看" then
      Action.viewCmd
    else if userInput = chars "/提示" ∨ userInput = chars "提示" then Action.hintCmd
    else if (chars "/验证").isPrefixOf userInput then
      match verifyMatch (userInput.drop 3) with
      | some grp => Action.callVerify (stripL grp)
      | none => Action.verifyUsageError
    else if (chars "验证").isPrefixOf userInput then
      match verifyMatch (userInput.drop 2) with
      | some grp => Action.callVerify (stripL grp)
      | none => Action.verifyUsageError
    else if userInput = chars "揭晓" then Action.revealCmd
    else if (chars "/").isPrefixOf userInput then Action.otherCommandIgnored
    else if atBot = false then Action.notAtBotIgnored
    else
      match game.question_limit with
      | some L =>
        if L ≤ game.question_count then
          Action.askRejected (2 - (game.verification_attempts : ℤ))
        else Action.callJudge (stripL userInput)
      | none => Action.callJudge (stripL userInput)

/-! ### Concrete games used by witnesses and counterexamples -/

/-- A game on the unlimited-question difficulty (question_limit None,
as in the 简单 profile). -/
def askG0 : Game :=
  { puzzle := chars "题面", answer := chars "真相", difficulty := chars "简单",
    question_limit := none, question_count := 0, verification_attempts := 0,
    accept_levels := [chars "完全还原", chars "核心推理正确"],
    hint_limit := some 10, hint_count := 0, qa_history := [] }

/-- A fresh game on a limit-3 difficulty. -/
def askG3 : Game :=
  { puzzle := chars "题面", answer := chars "真相", difficulty := chars "困难",
    question_limit := some 3, question_count := 0, verification_attempts := 0,
    accept_levels := [chars "完全还原"],
    hint_limit := some 1, hint_count := 0, qa_history := [] }

/-- A game whose profile accepts only the strictest level (普通 and
harder difficulties). -/
def strictGame : Game :=
  { puzzle := chars "题面", answer := chars "真相", difficulty := chars "普通",
    question_limit := none, question_count := 0, verification_attempts := 0,
    accept_levels := [chars "完全还原"],
    hint_limit := some 3, hint_count := 0, qa_history := [] }

/-- The same game under a profile that also accepts the near-miss
level. -/
def lenientGame : Game :=
  { strictGame with accept_levels := [chars "完全还原", chars "核心推理正确"] }

/-- An oracle outcome at the near-miss level 核心推理正确. -/
def strongRes : VerificationResult :=
  ⟨chars "核心推理正确", chars "主干正确", true⟩

/-- A strict-profile game whose question budget is exhausted and which
already failed one post-budget verification. -/
def c3Game : Game :=
  { strictGame with
      question_limit := some 5
      question_count := 5
      verification_attempts := 1 }

/-- A game with the question budget of askG3 exhausted. -/
def c5Game : Game := { askG3 with question_count := 3 }

/-- askG3 with hints disabled. -/
def c7DisabledGame : Game := { askG3 with hint_limit := some 0 }

/-- askG3 with one recorded exchange, ready for a hint. -/
def c7ReadyGame : Game :=
  { askG3 with qa_history := [(chars "问", chars "是")] }

/-! ### Pool lemmas and claims C1, C2, C9 -/

lemma mem_availableIndexes {p : Pool} {i : ℕ} :
    i ∈ availableIndexes p ↔ i < p.stories.length ∧ i ∉ p.used := by
  simp [availableIndexes, List.mem_filter, List.mem_range]

lemma getD_mod_mem {l : List ℕ} (h : l ≠ []) (r : ℕ) : l.getD (r % l.length) 0 ∈ l := by
  have hlt : r % l.length < l.length := Nat.mod_lt _ (List.length_pos.2 h)
  rw [List.getD_eq_getElem?_getD, List.getElem?_eq_getElem hlt]
  exact List.getElem_mem _

lemma availableIndexes_ne_nil {p : Pool} {n : ℕ} (hlen : p.stories.length = n)
    (_hsub : p.used ⊆ Finset.range n) (hcard : p.used.card < n) :
    availableIndexes p ≠ [] := by
  intro h
  have hall : ∀ i, i < n → i ∈ p.used := by
    intro i hi
    by_contra hmem
    have : i ∈ availableIndexes p := mem_availableIndexes.2 ⟨hlen ▸ hi, hmem⟩
    simp [h] at this
  have hsub2 : Finset.range n ⊆ p.used := fun i hi => hall i (Finset.mem_range.1 hi)
  have := Finset.card_le_card hsub2
  simp [Finset.card_range] at this
  omega

lemma drawP_step {p : Pool} {n : ℕ} (hlen : p.stories.length = n)
    (hne : p.stories ≠ []) (ha : availableIndexes p ≠ []) :
    ∃ i, drawP p r = (some i, ⟨p.stories, insert i p.used⟩)
      ∧ i < n ∧ i ∉ p.used := by
  refine ⟨(availableIndexes p).getD (r % (availableIndexes p).length) 0, ?_, ?_⟩
  · simp only [drawP, if_neg hne, if_neg ha]
  · have hmem := getD_mod_mem ha r
    exact hlen ▸ mem_availableIndexes.1 hmem

lemma drawSeq_spec (seeds : List ℕ) : ∀ (p : Pool) (n : ℕ),
    p.stories.length = n → p.used ⊆ Finset.range n →
    p.used.card + seeds.length ≤ n →
    (drawSeq p seeds).1.Nodup
    ∧ (drawSeq p seeds).1.length = seeds.length
    ∧ (∀ i ∈ (drawSeq p seeds).1, i < n ∧ i ∉ p.used)
    ∧ (drawSeq p seeds).2.stories = p.stories := by
  induction seeds with
  | nil => intro p n _ _ _; simp [drawSeq]
  | cons r rs ih =>
    intro p n hlen hsub hcard
    have hn : 0 < n := by simp at hcard; omega
    have hne : p.stories ≠ [] := by
      intro h; rw [h] at hlen; simp at hlen; omega
    have ha : availableIndexes p ≠ [] :=
      availableIndexes_ne_nil hlen hsub (by simp at hcard; omega)
    obtain ⟨i, hdraw, hilt, hinot⟩ := drawP_step (r := r) hlen hne ha
    have hstep : drawSeq p (r :: rs)
        = ((i :: (drawSeq ⟨p.stories, insert i p.used⟩ rs).1),
            (drawSeq ⟨p.stories, insert i p.used⟩ rs).2) := by
      simp [drawSeq, hdraw]
    set p1 : Pool := ⟨p.stories, insert i p.used⟩ with hp1
    have hsub1 : p1.used ⊆ Finset.range n := by
      intro j hj
      simp only [hp1, Finset.mem_insert] at hj
      rcases hj with hj | hj
      · exact Finset.mem_range.2 (hj ▸ hilt)
      · exact hsub hj
    have hcard1 : p1.used.card + rs.length ≤ n := by
      have : p1.used.card = p.used.card + 1 := by
        simp [hp1, Finset.card_insert_of_not_mem hinot]
      simp at hcard
      omega
    obtain ⟨ihnodup, ihlen, ihmem, ihst⟩ := ih p1 n (by simp [hp1, hlen]) hsub1 hcard1
    refine ⟨?_, ?_, ?_, ?_⟩
    · rw [hstep]
      refine List.nodup_cons.2 ⟨?_, ihnodup⟩
      intro hmem
      have := (ihmem i hmem).2
      simp [hp1] at this
    · rw [hstep]; simp [ihlen]
    · rw [hstep]
      intro j hj
      rcases List.mem_cons.1 hj with hj | hj
      · exact ⟨hj ▸ hilt, hj ▸ hinot⟩
      · have := ihmem j hj
        refine ⟨this.1, fun hmem => this.2 ?_⟩
        simp [hp1, Finset.mem_insert, hmem]
    · rw [hstep]; simpa [hp1] using ihst

/-- C1 (failing input): add_story on a pool at capacity evicts the
record at index 0 and appends the new record, but leaves the
used-index set untouched, so index 1 — which marked the surviving
record p1 before the shift — now marks the freshly appended, never
drawn record p2, while the spec-mandated remap would yield the set
containing 0 (still marking p1). -/
theorem C1_add_at_capacity_keeps_used_indexes :
    (addStoryP 2 c1Pool "p2" "a2" "t2").stories
        = [⟨"p1", "a1", none⟩, ⟨"p2", "a2", some "t2"⟩]
    ∧ (addStoryP 2 c1Pool "p2" "a2" "t2").used = {1}
    ∧ specEvictRemapUsed c1Pool.used = {0}
    ∧ (addStoryP 2 c1Pool "p2" "a2" "t2").used ≠ specEvictRemapUsed c1Pool.used := by
  refine ⟨rfl, rfl, ?_, ?_⟩ <;> decide

/-- C2: round-robin draw correctness. Part 1: from a fresh usage set, a
pool of N records answers N consecutive draws with N pairwise distinct
valid indices (round completeness), for every random choice sequence.
Part 2: when every valid index has been used, the next draw clears the
used set and returns a valid index, the used set afterwards holding
exactly that index. Part 3: a draw returns empty if and only if the
pool holds zero records. -/
theorem C2_draw_round_properties :
    (∀ (p : Pool) (n : ℕ) (seeds : List ℕ),
        p.stories.length = n → 1 ≤ n → p.used = ∅ → seeds.length = n →
        (drawSeq p seeds).1.Nodup ∧ (drawSeq p seeds).1.length = n
          ∧ ∀ i ∈ (drawSeq p seeds).1, i < n)
    ∧ (∀ (p : Pool) (n r : ℕ),
        p.stories.length = n → 1 ≤ n → (∀ i, i < n → i ∈ p.used) →
        ∃ j, j < n ∧ drawP p r = (some j, ⟨p.stories, {j}⟩))
    ∧ (∀ (p : Pool) (r : ℕ), (drawP p r).1 = none ↔ p.stories = []) := by
  refine ⟨?_, ?_, ?_⟩
  · intro p n seeds hlen hn hused hseeds
    have h := drawSeq_spec seeds p n hlen (by simp [hused]) (by simp [hused, hseeds])
    exact ⟨h.1, hseeds ▸ h.2.1, fun i hi => (h.2.2.1 i hi).1⟩
  · intro p n r hlen hn hall
    have hne : p.stories ≠ [] := by
      intro h; rw [h] at hlen; simp at hlen; omega
    have ha : availableIndexes p = [] := by
      rcases h : availableIndexes p with _ | ⟨i, t⟩
      · rfl
      · have : i ∈ availableIndexes p := by simp [h]
        have := mem_availableIndexes.1 this
        exact absurd (hall i (hlen ▸ this.1)) this.2
    have hrange : List.range p.stories.length ≠ [] := by
      simp [hlen]; omega
    refine ⟨(List.range p.stories.length).getD
      (r % (List.range p.stories.length).length) 0, ?_, ?_⟩
    · have := getD_mod_mem hrange r
      rw [List.mem_range] at this
      exact hlen ▸ this
    · simp only [drawP, if_neg hne, if_pos ha]
      rfl
  · intro p r
    constructor
    · intro h
      by_contra hne
      simp only [drawP, if_neg hne] at h
      exact Option.noConfusion h
    · intro h; simp [drawP, h]

theorem C2_draw_round_properties_witness :
    ((drawSeq w2Pool [0, 0]).1.Nodup ∧ (drawSeq w2Pool [0, 0]).1.length = 2
      ∧ ∀ i ∈ (drawSeq w2Pool [0, 0]).1, i < 2)
    ∧ ∃ j, j < 2 ∧ drawP ⟨w2Pool.stories, {0, 1}⟩ 5
        = (some j, ⟨w2Pool.stories, {j}⟩) := by
  refine ⟨C2_draw_round_properties.1 w2Pool 2 [0, 0] rfl (by decide) rfl rfl, ?_⟩
  exact C2_draw_round_properties.2.1 ⟨w2Pool.stories, {0, 1}⟩ 2 5 rfl (by decide)
    (by decide)

/-- C9: persistence failures never propagate. A failed or missing read
at load time yields an empty record list and an empty used-index set
while the load still returns; a failed write during get_story or
add_story leaves the in-memory mutation in place and the returned
value identical to the successful-write run. -/
theorem C9_persistence_failures_nonfatal :
    (load_usage_record .failed = ∅ ∧ load_usage_record .missing = ∅
      ∧ load_stories .failed = [] ∧ load_stories .missing = [])
    ∧ (∀ (w : PoolW) (r : ℕ),
        (get_story w r false).1 = (get_story w r true).1
          ∧ (get_story w r false).2.pool = (get_story w r true).2.pool)
    ∧ (∀ (w : PoolW) (m : ℕ) (pz aw ts : String),
        (add_story w m pz aw ts false).1 = true
          ∧ (add_story w m pz aw ts false).2.pool
              = (add_story w m pz aw ts true).2.pool) := by
  refine ⟨⟨rfl, rfl, rfl, rfl⟩, ?_, ?_⟩
  · intro w r
    rcases hd : drawP w.pool r with ⟨o, p1⟩
    cases o <;> simp [get_story, hd]
  · intro w m pz aw ts
    exact ⟨rfl, rfl⟩

/-! ### Session claims C3 - C7 -/

lemma handle_verification_nonwin_exhausted {g : Game} {res : VerificationResult}
    {L : ℕ} (hisc : decide (res.level ∈ g.accept_levels) = false)
    (hL : g.question_limit = some L) (hcount : L ≤ g.question_count) :
    handle_verification g res =
      if 0 < (2 - ((g.verification_attempts + 1 : ℕ) : ℤ)) then
        ⟨false, [Msg.rank res.level res.comment,
            Msg.verifyRemaining (2 - ((g.verification_attempts + 1 : ℕ) : ℤ))],
          { g with verification_attempts := g.verification_attempts + 1 }, false⟩
      else
        ⟨false, [Msg.rank res.level res.comment, Msg.lossReveal g.answer],
          { g with verification_attempts := g.verification_attempts + 1 }, true⟩ := by
  simp [handle_verification, hisc, hL, hcount]

/-- C3: a non-winning verification with no question limit only reports
the rank, changes nothing and keeps the session active; with a set and
exhausted question limit it bumps verification_attempts and, starting
from the reachable values 0 and 1 of that counter, reports one
remaining attempt on the first post-budget failure and terminates with
the solution revealed exactly on the second. -/
theorem C3_nonwinning_verification :
    ∀ (g : Game) (res : VerificationResult),
      res.level ∉ g.accept_levels →
      ((g.question_limit = none →
          handle_verification g res
            = ⟨false, [Msg.rank res.level res.comment], g, false⟩)
        ∧ (∀ L, g.question_limit = some L → L ≤ g.question_count →
            g.verification_attempts ≤ 1 →
            (handle_verification g res).game.verification_attempts
                = g.verification_attempts + 1
            ∧ (g.verification_attempts = 0 →
                (handle_verification g res).ended = false
                ∧ (handle_verification g res).msgs
                    = [Msg.rank res.level res.comment, Msg.verifyRemaining 1])
            ∧ (g.verification_attempts = 1 →
                (handle_verification g res).ended = true
                ∧ (handle_verification g res).msgs
                    = [Msg.rank res.level res.comment, Msg.lossReveal g.answer]))) := by
  intro g res h
  have hisc : decide (res.level ∈ g.accept_levels) = false := decide_eq_false h
  constructor
  · intro hnone
    simp [handle_verification, hisc, hnone]
  · intro L hL hcount hatt
    have hred := handle_verification_nonwin_exhausted hisc hL hcount
    rcases Nat.le_one_iff_eq_zero_or_eq_one.mp hatt with h0 | h0 <;>
      rw [h0] at hred <;> norm_num at hred <;>
      simp [hred, h0]

theorem C3_nonwinning_verification_witness :
    (handle_verification c3Game strongRes).ended = true
    ∧ (handle_verification c3Game strongRes).msgs
      = [Msg.rank strongRes.level strongRes.comment,
          Msg.lossReveal strictGame.answer] := by
  have h := (C3_nonwinning_verification c3Game strongRes (by decide)).2
    5 rfl (by decide) (by decide)
  exact h.2.2 rfl

/-- C4 counterexample: on a game with no question limit, an accepted
question invokes the oracle and appends to qa_history, but
question_count is not incremented, contradicting the claim that every
accepted Ask increments it by one. -/
theorem C4_no_limit_ask_does_not_increment :
    (handle_ask askG0 (chars "问") (chars "是")).oracleCalled = true
    ∧ (handle_ask askG0 (chars "问") (chars "是")).game.qa_history
        = [(chars "问", chars "是")]
    ∧ ¬ (handle_ask askG0 (chars "问") (chars "是")).game.question_count
        = askG0.question_count + 1 := by
  refine ⟨rfl, rfl, ?_⟩
  decide

/-- C4 (amended): every accepted Ask invokes the judgment oracle and
appends the question and verdict to qa_history; when a question limit
is configured the counter is incremented by one and the one-time
switch-to-verification notice is emitted exactly when the increment
reaches the limit, so with limit 3 the counter runs 1, 2, 3 over three
accepted Asks; with no limit configured question_count is left
unchanged. -/
theorem C4_accepted_ask_effects :
    (∀ (g : Game) (q r : Str),
      (g.question_limit = none
          ∨ ∃ L, g.question_limit = some L ∧ g.question_count < L) →
      (handle_ask g q r).oracleCalled = true
      ∧ (handle_ask g q r).game.qa_history = g.qa_history ++ [(q, r)]
      ∧ (∀ L, g.question_limit = some L →
          (handle_ask g q r).game.question_count = g.question_count + 1
          ∧ (g.question_count + 1 = L →
              Msg.switchToVerification ∈ (handle_ask g q r).msgs)
          ∧ (g.question_count + 1 < L →
              Msg.switchToVerification ∉ (handle_ask g q r).msgs))
      ∧ (g.question_limit = none →
          (handle_ask g q r).game.question_count = g.question_count))
    ∧ ((handle_ask askG3 (chars "一") (chars "是")).game.question_count = 1
        ∧ (handle_ask (handle_ask askG3 (chars "一") (chars "是")).game
            (chars "二") (chars "否")).game.question_count = 2
        ∧ (handle_ask (handle_ask (handle_ask askG3 (chars "一") (chars "是")).game
            (chars "二") (chars "否")).game (chars "三") (chars "是")).game.question_count = 3
        ∧ Msg.switchToVerification
            ∈ (handle_ask (handle_ask (handle_ask askG3 (chars "一") (chars "是")).game
                (chars "二") (chars "否")).game (chars "三") (chars "是")).msgs
        ∧ Msg.switchToVerification
            ∉ (handle_ask (handle_ask askG3 (chars "一") (chars "是")).game
                (chars "二") (chars "否")).msgs) := by
  constructor
  · intro g q r hacc
    rcases hacc with hnone | ⟨L, hL, hlt⟩
    · simp [handle_ask, hnone]
    · have hnot : ¬ L ≤ g.question_count := by omega
      have hred : handle_ask g q r
          = ⟨true,
              if L ≤ g.question_count + 1 then
                [Msg.judged r (g.question_count + 1) L, Msg.switchToVerification]
              else [Msg.judged r (g.question_count + 1) L],
              { g with
                  qa_history := g.qa_history ++ [(q, r)]
                  question_count := g.question_count + 1 }⟩ := by
        simp [handle_ask, hL, hnot]
      refine ⟨?_, ?_, ?_, ?_⟩
      · rw [hred]
      · rw [hred]
      · intro L2 hL2
        rw [hL] at hL2
        injection hL2 with hL2
        subst hL2
        rw [hred]
        refine ⟨rfl, ?_, ?_⟩
        · intro heq
          have : L ≤ g.question_count + 1 := by omega
          simp [this]
        · intro hlt2
          have : ¬ L ≤ g.question_count + 1 := by omega
          simp [this]
      · intro hn; rw [hn] at hL; exact Option.noConfusion hL
  · refine ⟨rfl, rfl, rfl, ?_, ?_⟩ <;> decide

theorem C4_accepted_ask_effects_witness :
    (handle_ask askG3 (chars "一") (chars "是")).oracleCalled = true
    ∧ (handle_ask askG3 (chars "一") (chars "是")).game.qa_history
        = askG3.qa_history ++ [(chars "一", chars "是")] := by
  have h := C4_accepted_ask_effects.1 askG3 (chars "一") (chars "是")
    (Or.inr ⟨3, rfl, by decide⟩)
  exact ⟨h.1, h.2.1⟩

/-- C5: a question arriving with a set and exhausted question limit is
rejected with the budget-exhausted notice carrying the remaining
verification attempts; judge_question is not awaited and the game dict
is returned unchanged, so qa_history, question_count, hint_count and
verification_attempts all keep their prior values. -/
theorem C5_exhausted_ask_rejected_frame :
    ∀ (g : Game) (q r : Str) (L : ℕ),
      g.question_limit = some L → L ≤ g.question_count →
      handle_ask g q r
        = ⟨false, [Msg.budgetExhausted (2 - (g.verification_attempts : ℤ))], g⟩ := by
  intro g q r L hL hc
  simp [handle_ask, hL, hc]

theorem C5_exhausted_ask_rejected_frame_witness :
    handle_ask c5Game (chars "再问") (chars "是")
      = ⟨false, [Msg.budgetExhausted 2], c5Game⟩ := by
  have h := C5_exhausted_ask_rejected_frame c5Game
    (chars "再问") (chars "是") 3 rfl (by decide)
  simpa using h

/-- C6: the winning flag of a verification is exactly membership of
the returned level in the session's accept_levels, not a fixed
constant and not the oracle's own flag: the near-miss level loses and
leaves the session alive under a profile accepting only 完全还原, yet
wins, terminates the session and reveals the stored solution under a
profile that also accepts 核心推理正确. -/
theorem C6_winning_by_accept_levels :
    (∀ (g : Game) (res : VerificationResult),
        (handle_verification g res).is_correct
          = decide (res.level ∈ g.accept_levels))
    ∧ ((handle_verification strictGame strongRes).is_correct = false
        ∧ (handle_verification strictGame strongRes).ended = false)
    ∧ ((handle_verification lenientGame strongRes).is_correct = true
        ∧ (handle_verification lenientGame strongRes).ended = true
        ∧ Msg.winReveal lenientGame.answer
            ∈ (handle_verification lenientGame strongRes).msgs) := by
  refine ⟨?_, by decide, by decide⟩
  intro g res
  by_cases h : res.level ∈ g.accept_levels
  · simp [handle_verification, h]
  · have hisc : decide (res.level ∈ g.accept_levels) = false := decide_eq_false h
    rcases hql : g.question_limit with _ | L
    · simp [handle_verification, hisc, hql]
    · by_cases hc : L ≤ g.question_count
      · rw [handle_verification_nonwin_exhausted hisc hql hc]
        split <;> simp [hisc]
      · simp [handle_verification, hisc, hql, hc]

/-- C7: the hint request is rejected without invoking the hint oracle
and without touching hint_count exactly in the three source-ordered
cases — hint limit zero, set and exhausted hint limit, empty
qa_history — and in every other active-session case it invokes
generate_hint with the full qa_history and the solution and increments
hint_count by one. -/
theorem C7_hint_gating :
    ∀ (g : Game) (hint : Str),
      (g.hint_limit = some 0 →
          build_hint_result g hint = ⟨none, Msg.hintDisabled, g⟩)
      ∧ (g.hint_limit ≠ some 0 →
          ∀ L, g.hint_limit = some L → L ≤ g.hint_count →
          build_hint_result g hint = ⟨none, Msg.hintBudgetExhausted, g⟩)
      ∧ ((∀ L, g.hint_limit = some L → g.hint_count < L) →
          g.qa_history = [] →
          build_hint_result g hint = ⟨none, Msg.askFirst, g⟩)
      ∧ ((∀ L, g.hint_limit = some L → g.hint_count < L) →
          g.qa_history ≠ [] →
          build_hint_result g hint
            = ⟨some (g.qa_history, g.answer),
                Msg.hintText hint (g.hint_limit.map (fun L => (g.hint_count + 1, L))),
                { g with hint_count := g.hint_count + 1 }⟩) := by
  intro g hint
  refine ⟨?_, ?_, ?_, ?_⟩
  · intro h0
    simp [build_hint_result, h0]
  · intro h0 L hL hc
    have hL0 : L ≠ 0 := fun h => h0 (h ▸ hL)
    simp [build_hint_result, h0, hL, hc, hL0]
  · intro hstrict hqa
    have h0 : g.hint_limit ≠ some 0 := by
      intro h
      exact absurd (hstrict 0 h) (by omega)
    have hmatch : (match g.hint_limit with
        | some L => decide (L ≤ g.hint_count)
        | none => false) = false := by
      rcases hql : g.hint_limit with _ | L
      · rfl
      · simp [decide_eq_false (by have := hstrict L hql; omega : ¬ L ≤ g.hint_count)]
    simp [build_hint_result, h0, hmatch, hqa]
  · intro hstrict hqa
    have h0 : g.hint_limit ≠ some 0 := by
      intro h
      exact absurd (hstrict 0 h) (by omega)
    have hmatch : (match g.hint_limit with
        | some L => decide (L ≤ g.hint_count)
        | none => false) = false := by
      rcases hql : g.hint_limit with _ | L
      · rfl
      · simp [decide_eq_false (by have := hstrict L hql; omega : ¬ L ≤ g.hint_count)]
    simp [build_hint_result, h0, hmatch, hqa]

theorem C7_hint_gating_witness :
    build_hint_result c7DisabledGame (chars "提示文本")
        = ⟨none, Msg.hintDisabled, c7DisabledGame⟩
    ∧ build_hint_result c7ReadyGame (chars "提示文本")
        = ⟨some ([(chars "问", chars "是")], askG3.answer),
            Msg.hintText (chars "提示文本") (some (1, 1)),
            { c7ReadyGame with hint_count := 1 }⟩ := by
  constructor
  · exact (C7_hint_gating c7DisabledGame (chars "提示文本")).1 rfl
  · have h := (C7_hint_gating c7ReadyGame (chars "提示文本")).2.2.2
      (by
        intro L hL
        rw [show c7ReadyGame.hint_limit = some 1 from rfl] at hL
        injection hL with hL
        show c7ReadyGame.hint_count < L
        rw [show c7ReadyGame.hint_count = 0 from rfl]
        omega)
      (by decide)
    simpa using h

/-! ### Claim C10: verification-reply parsing -/

/-- C10: _parse_verification_result is a total function — modelled as
such, every branch returning a VerificationResult — whose is_correct
flag is true exactly when its level is one of the two winning levels,
and which falls back to 验证失败 with a negative flag whenever the
line scan yields no complete 等级／评价 pair and neither winning-level
keyword occurs anywhere in the text. -/
theorem C10_parse_verification_consistent :
    ∀ text : Str,
      ((parse_verification_result text).is_correct = true
          ↔ (parse_verification_result text).level ∈ winningLevels)
      ∧ ((scanLevelComment (splitNl (stripL text))).1 = []
            ∨ (scanLevelComment (splitNl (stripL text))).2 = [] →
          containsSub (chars "完全还原") text = false →
          containsSub (chars "核心推理正确") text = false →
          parse_verification_result text
            = ⟨chars "验证失败", chars "无法解析验证结果", false⟩) := by
  intro text
  refine ⟨?_, ?_⟩
  · by_cases h1 : ((scanLevelComment (splitNl (stripL text))).1 = []
        ∨ (scanLevelComment (splitNl (stripL text))).2 = [])
    · by_cases h2 : containsSub (chars "核心推理正确") text = true
      · have hor : (containsSub (chars "完全还原") text
            || containsSub (chars "核心推理正确") text) = true := by simp [h2]
        simp [parse_verification_result, h1, hor, h2, winningLevels]
      · by_cases h3 : containsSub (chars "完全还原") text = true
        · simp [parse_verification_result, h1, h2, h3, winningLevels]
        · have hor : (containsSub (chars "完全还原") text
              || containsSub (chars "核心推理正确") text) = false := by
            simp only [Bool.or_eq_false_iff]
            exact ⟨Bool.eq_false_iff.2 h3, Bool.eq_false_iff.2 h2⟩
          simp only [parse_verification_result, if_pos h1, hor, Bool.false_eq_true,
            if_false]
          constructor
          · intro h; exact absurd h (by decide)
          · intro h; exact absurd h (by decide)
    · simp [parse_verification_result, h1]
  · intro hpair hc1 hc2
    have hor : (containsSub (chars "完全还原") text
        || containsSub (chars "核心推理正确") text) = false := by
      simp [hc1, hc2]
    simp [parse_verification_result, hpair, hor]

theorem C10_parse_verification_consistent_witness :
    parse_verification_result (chars "乱写")
      = ⟨chars "验证失败", chars "无法解析验证结果", false⟩ := by
  exact (C10_parse_verification_consistent (chars "乱写")).2
    (by decide) (by decide) (by decide)

/-! ### Claim C8: empty question and guess text -/

lemma head?_dropWhile_false {p : Char → Bool} :
    ∀ {l : Str} {c : Char}, (l.dropWhile p).head? = some c → p c = false := by
  intro l
  induction l with
  | nil => intro c h; simp at h
  | cons a t ih =>
    intro c h
    rw [List.dropWhile_cons] at h
    by_cases hp : p a = true
    · rw [if_pos hp] at h
      exact ih h
    · rw [if_neg hp] at h
      simp only [List.head?_cons, Option.some.injEq] at h
      subst h
      exact Bool.eq_false_iff.2 hp

lemma stripL_getLast_not_ws {l : Str} {c : Char}
    (h : (stripL l).getLast? = some c) : pyWS c = false := by
  unfold stripL rstripL at h
  rw [List.getLast?_reverse] at h
  exact head?_dropWhile_false h

lemma getLast?_of_ne_nil {l : Str} (h : l ≠ []) : ∃ c, l.getLast? = some c := by
  cases hc : l.getLast? with
  | none => exact absurd (List.getLast?_eq_none_iff.1 hc) h
  | some c => exact ⟨c, rfl⟩

lemma getLast?_drop_of_ne_nil {l : Str} {k : ℕ} (h : l.drop k ≠ []) :
    (l.drop k).getLast? = l.getLast? := by
  have hd : l.take k ++ l.drop k = l := List.take_append_drop k l
  have h2 : (l.take k ++ l.drop k).getLast? = (l.drop k).getLast? :=
    List.getLast?_append_of_ne_nil _ h
  rw [hd] at h2
  exact h2.symm

lemma lstripL_keeps_getLast {l : Str} {c : Char}
    (hl : l.getLast? = some c) (hc : pyWS c = false) :
    (lstripL l).getLast? = some c := by
  unfold lstripL
  have hd : l.takeWhile pyWS ++ l.dropWhile pyWS = l :=
    List.takeWhile_append_dropWhile pyWS l
  by_cases hnil : l.dropWhile pyWS = []
  · exfalso
    rw [hnil, List.append_nil] at hd
    have hmem : c ∈ l := List.mem_of_mem_getLast? hl
    rw [← hd] at hmem
    have := List.mem_takeWhile_imp hmem
    rw [hc] at this
    exact Bool.noConfusion this
  · have h2 : (l.takeWhile pyWS ++ l.dropWhile pyWS).getLast?
        = (l.dropWhile pyWS).getLast? := List.getLast?_append_of_ne_nil _ hnil
    rw [hd] at h2
    rw [← h2, hl]

lemma dropWhile_eq_self_of_head {p : Char → Bool} {l : Str} {c : Char}
    (hh : l.head? = some c) (hc : p c = false) : l.dropWhile p = l := by
  cases l with
  | nil => simp at hh
  | cons a t =>
    simp only [List.head?_cons, Option.some.injEq] at hh
    subst hh
    rw [List.dropWhile_cons, if_neg (by simp [hc])]

lemma rstripL_ne_nil_of_getLast {l : Str} {c : Char}
    (hl : l.getLast? = some c) (hc : pyWS c = false) : rstripL l ≠ [] := by
  unfold rstripL
  have hh : l.reverse.head? = some c := by rw [List.head?_reverse, hl]
  rw [dropWhile_eq_self_of_head hh hc, List.reverse_reverse]
  intro h
  rw [h] at hl
  simp at hl

lemma stripL_ne_nil_of_getLast {l : Str} {c : Char}
    (hl : l.getLast? = some c) (hc : pyWS c = false) : stripL l ≠ [] := by
  unfold stripL
  exact rstripL_ne_nil_of_getLast (lstripL_keeps_getLast hl hc) hc

lemma matchTail_some {t g : Str} (h : matchTail t = some g) :
    t ≠ [] ∧ (g = t ∨ t.getLast? = some '\n') := by
  unfold matchTail at h
  split_ifs at h with h1 h2 h3
  · injection h with h
    exact ⟨h1, Or.inl h.symm⟩
  · exact ⟨h1, Or.inr h3.1⟩

lemma tryBack_some {t g : Str} : ∀ {j : ℕ}, tryBack t j = some g →
    ∃ k, matchTail (t.drop k) = some g := by
  intro j
  induction j with
  | zero =>
    intro h
    exact ⟨0, by simpa [tryBack, List.drop_zero] using h⟩
  | succ j ih =>
    intro h
    unfold tryBack at h
    rcases hm : matchTail (t.drop (j + 1)) with _ | g2
    · rw [hm] at h
      exact ih h
    · rw [hm] at h
      injection h with h
      exact ⟨j + 1, by rw [hm, h]⟩

lemma verify_guess_core (s : Str) (m : ℕ) {grp : Str}
    (hm : verifyMatch ((stripL s).drop m) = some grp) :
    stripL grp ≠ [] := by
  have hune : stripL s ≠ [] := by
    intro h
    rw [h] at hm
    simp [verifyMatch, tryBack, matchTail] at hm
  obtain ⟨c, hc⟩ := getLast?_of_ne_nil hune
  have hcws : pyWS c = false := stripL_getLast_not_ws hc
  unfold verifyMatch at hm
  obtain ⟨k, hk⟩ := tryBack_some hm
  rw [List.drop_drop] at hk
  obtain ⟨htne, hg⟩ := matchTail_some hk
  have hlast : ((stripL s).drop (m + k)).getLast? = some c := by
    rw [getLast?_drop_of_ne_nil htne, hc]
  rcases hg with hg | hg
  · rw [hg]
    exact stripL_ne_nil_of_getLast hlast hcws
  · rw [hlast] at hg
    injection hg with hg
    rw [hg] at hcws
    simp [pyWS] at hcws

/-- C8 counterexample: an at-bot message whose text is whitespace only
is not rejected by the ask path; it reaches judge_question, the
question handed over being empty after trimming. -/
theorem C8_empty_ask_reaches_oracle :
    dispatch (some askG0) (chars "   ") true = Action.callJudge [] := by
  decide

set_option maxHeartbeats 1600000 in
/-- C8 (amended): the guess handed to the verification oracle is never
empty after trimming — a verification command whose guess text is
empty or whitespace-only fails the regex and is rejected before
verify_user_guess — while the ask path performs no such screening: an
at-bot message of pure whitespace reaches judge_question with empty
question text. -/
theorem C8_empty_text_gate :
    (∀ (game : Game) (messageStr : Str) (atBot : Bool) (guess : Str),
        dispatch (some game) messageStr atBot = Action.callVerify guess →
        guess ≠ [])
    ∧ dispatch (some askG0) (chars "   ") true = Action.callJudge [] := by
  constructor
  · intro game s b guess h
    simp only [dispatch] at h
    split_ifs at h with h1 h2 h3 h4 h5 h6 h7 h8 h9
    · rcases hm : verifyMatch ((stripL s).drop 3) with _ | grp
      · rw [hm] at h
        exact absurd h (by simp)
      · rw [hm] at h
        simp only [Action.callVerify.injEq] at h
        rw [← h]
        exact verify_guess_core s 3 hm
    · rcases hm : verifyMatch ((stripL s).drop 2) with _ | grp
      · rw [hm] at h
        exact absurd h (by simp)
      · rw [hm] at h
        simp only [Action.callVerify.injEq] at h
        rw [← h]
        exact verify_guess_core s 2 hm
    · split at h <;>
        first
          | split_ifs at h
          | exact absurd h (by simp)
  · decide

theorem C8_empty_text_gate_witness :
    chars "他是凶手" ≠ ([] : Str) := by
  exact C8_empty_text_gate.1 askG0 (chars "/验证 他是凶手") true
    (chars "他是凶手") (by decide)

end Soupai
